import Mathlib

/-!
# Verification of the majik-money arithmetic engine

Shallow embedding of `src/majik-money.ts` and `src/currency.ts`.

Modelling conventions:
* `Decimal` values (decimal.js) are modelled by `DecVal`: either a finite exact
  rational or one of the special values `posInf`, `negInf`, `nan`, with the
  propagation rules decimal.js uses (division by zero yields a signed infinity,
  `0/0` and `Infinity - Infinity` yield `NaN`, `NaN` contaminates every
  operation and makes every comparison false).  Finite arithmetic is modelled
  exactly; the configured 40-significant-digit precision of the library is far
  beyond any realistic monetary magnitude and is not modelled.
* Caller-supplied JS `number` scalars (ratios, rates, factors, weights) are
  modelled as exact rationals.
* Thrown `Error`s are modelled with `Except String`, carrying the exact
  message strings of the source.  Functions that cannot throw are total.
* The TS default-parameter rule applies: passing `undefined` for the
  constructor currency selects the default `CURRENCIES[PHP]`; this is modelled
  by an `Option CurrencyDefinition` argument.
-/

deriving instance DecidableEq for Except

/-- decimal.js rounding modes (the enumeration used by `toDecimalPlaces`). -/
inductive Rounding where
  | up
  | down
  | ceil
  | floor
  | halfUp
  | halfDown
  | halfEven
  | halfCeil
  | halfFloor
deriving DecidableEq

/-- Kernel-computable floor of a rational. -/
def ratFloor (q : ℚ) : ℤ := q.num / q.den

/-- Kernel-computable ceiling of a rational. -/
def ratCeil (q : ℚ) : ℤ := -ratFloor (-q)

theorem ratFloor_eq (q : ℚ) : ratFloor q = ⌊q⌋ := Rat.floor_def.symm

theorem ratCeil_eq (q : ℚ) : ratCeil q = ⌈q⌉ := by
  unfold ratCeil
  rw [ratFloor_eq, Int.floor_neg, neg_neg]

/-- Round `q` to an integer when the fractional part is not exactly one half;
ties are resolved by `tie`. -/
def halfRound (q : ℚ) (tie : ℤ) : ℤ :=
  if q - ratFloor q < 1/2 then ratFloor q
  else if 1/2 < q - ratFloor q then ratFloor q + 1
  else tie

/-- Rounding of a rational to an integer, one case per decimal.js mode. -/
def roundQ (r : Rounding) (q : ℚ) : ℤ :=
  match r with
  | .up => if q < 0 then ratFloor q else ratCeil q
  | .down => if q < 0 then ratCeil q else ratFloor q
  | .ceil => ratCeil q
  | .floor => ratFloor q
  | .halfUp => halfRound q (if q < 0 then ratFloor q else ratFloor q + 1)
  | .halfDown => halfRound q (if q < 0 then ratFloor q + 1 else ratFloor q)
  | .halfEven => halfRound q (if ratFloor q % 2 = 0 then ratFloor q else ratFloor q + 1)
  | .halfCeil => halfRound q (ratFloor q + 1)
  | .halfFloor => halfRound q (ratFloor q)

/-- A decimal.js `Decimal` value: a finite exact rational or a special value. -/
inductive DecVal where
  | fin (q : ℚ)
  | posInf
  | negInf
  | nan
deriving DecidableEq

namespace DecVal

/-- Negation (`Decimal.prototype.neg`). -/
def neg : DecVal → DecVal
  | fin q => fin (-q)
  | posInf => negInf
  | negInf => posInf
  | nan => nan

/-- Addition (`Decimal.prototype.add`). -/
def add : DecVal → DecVal → DecVal
  | nan, _ => nan
  | _, nan => nan
  | posInf, negInf => nan
  | negInf, posInf => nan
  | posInf, _ => posInf
  | _, posInf => posInf
  | negInf, _ => negInf
  | _, negInf => negInf
  | fin a, fin b => fin (a + b)

/-- Subtraction (`Decimal.prototype.sub`), as addition of the negation. -/
def sub (a b : DecVal) : DecVal := a.add b.neg

/-- Multiplication (`Decimal.prototype.mul`). -/
def mul : DecVal → DecVal → DecVal
  | nan, _ => nan
  | _, nan => nan
  | posInf, posInf => posInf
  | posInf, negInf => negInf
  | negInf, posInf => negInf
  | negInf, negInf => posInf
  | posInf, fin b => if b = 0 then nan else if 0 < b then posInf else negInf
  | fin a, posInf => if a = 0 then nan else if 0 < a then posInf else negInf
  | negInf, fin b => if b = 0 then nan else if 0 < b then negInf else posInf
  | fin a, negInf => if a = 0 then nan else if 0 < a then negInf else posInf
  | fin a, fin b => fin (a * b)

/-- Division (`Decimal.prototype.div`): a nonzero finite value divided by zero
yields a signed infinity, `0/0` yields `NaN`. -/
def div : DecVal → DecVal → DecVal
  | nan, _ => nan
  | _, nan => nan
  | posInf, posInf => nan
  | posInf, negInf => nan
  | negInf, posInf => nan
  | negInf, negInf => nan
  | posInf, fin b => if 0 ≤ b then posInf else negInf
  | negInf, fin b => if 0 ≤ b then negInf else posInf
  | fin _, posInf => fin 0
  | fin _, negInf => fin 0
  | fin a, fin b =>
      if b = 0 then (if a = 0 then nan else if 0 < a then posInf else negInf)
      else fin (a / b)

/-- `Decimal.prototype.toDecimalPlaces(0, rounding)`: round a finite value to
an integer; special values round to themselves. -/
def toDP (r : Rounding) : DecVal → DecVal
  | fin q => fin ((roundQ r q : ℤ) : ℚ)
  | posInf => posInf
  | negInf => negInf
  | nan => nan

/-- `Decimal.prototype.isZero`. -/
def isZero : DecVal → Bool
  | fin q => decide (q = 0)
  | _ => false

/-- `Decimal.prototype.isFinite`. -/
def isFinite : DecVal → Bool
  | fin _ => true
  | _ => false

/-- `Decimal.prototype.equals`: `NaN` compares unequal to everything. -/
def deq : DecVal → DecVal → Bool
  | fin a, fin b => decide (a = b)
  | posInf, posInf => true
  | negInf, negInf => true
  | _, _ => false

/-- `Decimal.prototype.gt`: any comparison with `NaN` is false. -/
def gtb : DecVal → DecVal → Bool
  | fin a, fin b => decide (b < a)
  | posInf, posInf => false
  | posInf, nan => false
  | posInf, _ => true
  | negInf, _ => false
  | nan, _ => false
  | fin _, negInf => true
  | fin _, _ => false

/-- `Decimal.prototype.lt`: any comparison with `NaN` is false. -/
def ltb (a b : DecVal) : Bool := gtb b a

/-- `Decimal.prototype.gte`: any comparison with `NaN` is false. -/
def gteb : DecVal → DecVal → Bool
  | fin a, fin b => decide (b ≤ a)
  | posInf, nan => false
  | posInf, _ => true
  | negInf, negInf => true
  | negInf, _ => false
  | nan, _ => false
  | fin _, negInf => true
  | fin _, _ => false

/-- `Decimal.prototype.lte`: any comparison with `NaN` is false. -/
def lteb (a b : DecVal) : Bool := gteb b a

end DecVal

/-- `CurrencyDefinition` from `src/currency.ts`. -/
structure CurrencyDefinition where
  code : String
  symbol : String
  minorUnits : ℕ
  name : String
deriving DecidableEq

/-- The static `CURRENCIES` table of `src/currency.ts`, as an association
list keyed by ISO code. -/
def CURRENCIES : List (String × CurrencyDefinition) :=
  [ ("USD", ⟨"USD", "$", 2, "US Dollar"⟩)
  , ("EUR", ⟨"EUR", "€", 2, "Euro"⟩)
  , ("JPY", ⟨"JPY", "¥", 0, "Yen"⟩)
  , ("GBP", ⟨"GBP", "£", 2, "Pound Sterling"⟩)
  , ("CHF", ⟨"CHF", "CHF", 2, "Swiss Franc"⟩)
  , ("AUD", ⟨"AUD", "$", 2, "Australian Dollar"⟩)
  , ("CAD", ⟨"CAD", "$", 2, "Canadian Dollar"⟩)
  , ("CNY", ⟨"CNY", "¥", 2, "Yuan Renminbi"⟩)
  , ("HKD", ⟨"HKD", "$", 2, "Hong Kong Dollar"⟩)
  , ("SGD", ⟨"SGD", "$", 2, "Singapore Dollar"⟩)
  , ("PHP", ⟨"PHP", "₱", 2, "Philippine Peso"⟩)
  , ("KRW", ⟨"KRW", "₩", 0, "Won"⟩)
  , ("INR", ⟨"INR", "₹", 2, "Indian Rupee"⟩)
  , ("IDR", ⟨"IDR", "Rp", 2, "Rupiah"⟩)
  , ("THB", ⟨"THB", "฿", 2, "Baht"⟩)
  , ("MYR", ⟨"MYR", "RM", 2, "Ringgit"⟩)
  , ("VND", ⟨"VND", "₫", 0, "Dong"⟩)
  , ("KWD", ⟨"KWD", "د.ك", 3, "Kuwaiti Dinar"⟩)
  , ("BHD", ⟨"BHD", ".د.ب", 3, "Bahraini Dinar"⟩)
  , ("JOD", ⟨"JOD", "د.ا", 3, "Jordanian Dinar"⟩)
  , ("CLP", ⟨"CLP", "$", 0, "Chilean Peso"⟩)
  , ("COP", ⟨"COP", "$", 2, "Colombian Peso"⟩)
  , ("MXN", ⟨"MXN", "$", 2, "Mexican Peso"⟩)
  , ("BRL", ⟨"BRL", "R$", 2, "Brazilian Real"⟩)
  , ("ARS", ⟨"ARS", "$", 2, "Argentine Peso"⟩)
  , ("ZAR", ⟨"ZAR", "R", 2, "Rand"⟩)
  , ("NGN", ⟨"NGN", "₦", 2, "Naira"⟩)
  , ("KES", ⟨"KES", "KSh", 2, "Kenyan Shilling"⟩)
  , ("EGP", ⟨"EGP", "£", 2, "Egyptian Pound"⟩)
  , ("RUB", ⟨"RUB", "₽", 2, "Russian Ruble"⟩)
  , ("TRY", ⟨"TRY", "₺", 2, "Turkish Lira"⟩)
  , ("PLN", ⟨"PLN", "zł", 2, "Zloty"⟩)
  , ("CZK", ⟨"CZK", "Kč", 2, "Czech Koruna"⟩)
  , ("HUF", ⟨"HUF", "Ft", 2, "Forint"⟩)
  ]

/-- `CURRENCIES[code]`: record lookup by key; an absent key gives
`undefined`, modelled by `none`. -/
def lookupCurrency (code : String) : Option CurrencyDefinition :=
  CURRENCIES.lookup code

/-- The `CURRENCIES[PHP]` entry, the default currency of the constructor. -/
def PHPDef : CurrencyDefinition := ⟨"PHP", "₱", 2, "Philippine Peso"⟩

/-- The `MajikMoney` class: a `Decimal` amount in minor units and a currency
definition. -/
structure MajikMoney where
  amount : DecVal
  currency : CurrencyDefinition
deriving DecidableEq

/-- `new MajikMoney(amount, currency)`: the constructor stores
`new Decimal(amount).toDecimalPlaces(0)` — rounded with the configured
default mode `ROUND_HALF_EVEN` — and the given currency.  A missing or
`undefined` currency argument (`none`) selects the TS default parameter
`CURRENCIES[PHP]`. -/
def MajikMoney.make (amount : DecVal) (currency : Option CurrencyDefinition) :
    MajikMoney :=
  ⟨amount.toDP .halfEven, currency.getD PHPDef⟩

/-- The character of a decimal digit (`0`–`9`). -/
def digitChar (d : ℕ) : Char := Char.ofNat (48 + d)

/-- The decimal digit string of a natural number, most significant digit
first. -/
def natDigitsString (n : ℕ) : String :=
  if n = 0 then "0" else ⟨((Nat.digits 10 n).map digitChar).reverse⟩

/-- The plain decimal string of an integer, with a leading minus sign when
negative. -/
def intToDecString (n : ℤ) : String :=
  if n < 0 then "-" ++ natDigitsString n.natAbs else natDigitsString n.natAbs

/-- `Decimal.prototype.toString` with the configured `toExpNeg`/`toExpPos`
window.  Faithful on the special values and on integer values of fewer than
51 digits (inside the window plain decimal notation is used; beyond it the
library would switch to exponent notation).  Amounts at rest are always
integers, so the non-integer branch is never reached from `toJSON`. -/
def DecVal.decToString : DecVal → String
  | .nan => "NaN"
  | .posInf => "Infinity"
  | .negInf => "-Infinity"
  | .fin q => intToDecString q.num

/-- Numeric value of a decimal digit character. -/
def charDigit (c : Char) : ℕ := c.toNat - 48

/-- Whether a character is a decimal digit. -/
def isDigitChar (c : Char) : Bool := decide (48 ≤ c.toNat) && decide (c.toNat ≤ 57)

/-- Parse a nonempty all-digit character list as a natural number. -/
def parseNatDigits (cs : List Char) : Option ℕ :=
  if cs.isEmpty then none
  else if cs.all isDigitChar then
    some (cs.foldl (fun a c => 10 * a + charDigit c) 0)
  else none

/-- Split a character list at the first dot, if any. -/
def splitOnDot : List Char → List Char × Option (List Char)
  | [] => ([], none)
  | c :: cs =>
    if c = '.' then ([], some cs)
    else
      let p := splitOnDot cs
      (c :: p.1, p.2)

/-- Parse an unsigned decimal literal (digits with an optional fractional
part) as an exact rational. -/
def parseUnsignedChars (cs : List Char) : Option ℚ :=
  match splitOnDot cs with
  | (ip, none) => (parseNatDigits ip).map (fun n => (n : ℚ))
  | (ip, some fp) =>
    match parseNatDigits ip, parseNatDigits fp with
    | some i, some f => some ((i : ℚ) + (f : ℚ) / (10 : ℚ) ^ fp.length)
    | _, _ => none

/-- `new Decimal(string)` on plain decimal literals: an optional sign
followed by digits and an optional fractional part.  Exponent and special
literals are outside the modelled fragment (`toJSON` of an integer amount
never produces them inside the configured window). -/
def parseDecString (s : String) : Option DecVal :=
  match s.data with
  | [] => none
  | c :: cs =>
    if c = '-' then (parseUnsignedChars cs).map (fun q => DecVal.fin (-q))
    else (parseUnsignedChars (c :: cs)).map DecVal.fin

/-- The `MajikMoneyJSON` wire shape: `amount` is a string or a number
(`Sum.inl` strings, `Sum.inr` numbers), `currency` an ISO code, and
`typeTag` models the optional `__type` field. -/
structure MajikMoneyJSON where
  amount : Sum String DecVal
  currency : String
  typeTag : Option String
deriving DecidableEq

/-- `MajikMoney.fromMinor`: looks the code up in `CURRENCIES` and passes the
result straight to the constructor — an absent code passes `undefined`,
which selects the constructor default currency. -/
def MajikMoney.fromMinor (minor : DecVal) (currencyCode : String) : MajikMoney :=
  MajikMoney.make minor (lookupCurrency currencyCode)

/-- `MajikMoney.fromMajor`: fails on an unknown code, otherwise multiplies
by `10^minorUnits` and rounds to an integer with the given mode. -/
def MajikMoney.fromMajor (amount : DecVal) (currencyCode : String)
    (rounding : Rounding) : Except String MajikMoney :=
  match lookupCurrency currencyCode with
  | none => .error "Unsupported currency"
  | some currency =>
    let factor : DecVal := .fin ((10 : ℚ) ^ currency.minorUnits)
    let minor := amount.mul factor
    .ok (MajikMoney.make (minor.toDP rounding) (some currency))

/-- `MajikMoney.parseFromJSON`: the runtime string check on `currency` is
statically satisfied here; an unknown code fails, and the amount is handed
to the constructor (a string amount is parsed as a decimal literal, failing
as `new Decimal` would on an unparsable string). -/
def MajikMoney.parseFromJSON (data : MajikMoneyJSON) : Except String MajikMoney :=
  match lookupCurrency data.currency with
  | none => .error ("Unsupported currency " ++ data.currency)
  | some currency =>
    match data.amount with
    | .inr v => .ok (MajikMoney.make v (some currency))
    | .inl s =>
      match parseDecString s with
      | some v => .ok (MajikMoney.make v (some currency))
      | none => .error ("[DecimalError] Invalid argument: " ++ s)

/-- `toJSON()`: amount as its decimal string, the ISO code, and the
`__type` tag. -/
def MajikMoney.toJSON (m : MajikMoney) : MajikMoneyJSON :=
  ⟨Sum.inl m.amount.decToString, m.currency.code, some "MajikMoney"⟩

/-- `toMajor()`: divides by `10^minorUnits` and converts to a JS number via
`toNumber()`.  The float conversion is modelled as the exact value; it is
lossless for the zero, infinite and NaN cases and whenever the quotient
survives the binary64 round-trip (at most 15 significant digits). -/
def MajikMoney.toMajor (m : MajikMoney) : DecVal :=
  m.amount.div (.fin ((10 : ℚ) ^ m.currency.minorUnits))

/-- `toMajorDecimal()`: the same quotient, kept as a `Decimal`. -/
def MajikMoney.toMajorDecimal (m : MajikMoney) : DecVal :=
  m.amount.div (.fin ((10 : ℚ) ^ m.currency.minorUnits))

/-- `toMinor()`: the stored amount, via `toNumber()` (exact below `2^53`,
modelled as the exact value). -/
def MajikMoney.toMinor (m : MajikMoney) : DecVal := m.amount

/-- `assertSameCurrency`: fails with the interpolated mismatch message. -/
def MajikMoney.assertSameCurrency (a b : MajikMoney) : Except String Unit :=
  if a.currency.code = b.currency.code then .ok ()
  else .error ("Currency mismatch: " ++ a.currency.code ++ " vs " ++ b.currency.code)

/-- `add`: same-currency assertion, then exact integer addition. -/
def MajikMoney.add (a b : MajikMoney) : Except String MajikMoney :=
  (a.assertSameCurrency b).map fun _ =>
    MajikMoney.make (a.amount.add b.amount) (some a.currency)

/-- `subtract`: same-currency assertion, then exact integer subtraction. -/
def MajikMoney.subtract (a b : MajikMoney) : Except String MajikMoney :=
  (a.assertSameCurrency b).map fun _ =>
    MajikMoney.make (a.amount.sub b.amount) (some a.currency)

/-- `multiply`: product rounded to an integer with the given mode. -/
def MajikMoney.multiply (m : MajikMoney) (factor : DecVal) (rounding : Rounding) :
    MajikMoney :=
  MajikMoney.make ((m.amount.mul factor).toDP rounding) (some m.currency)

/-- `divide`: quotient rounded to an integer with the given mode.  No zero
check — a zero divisor flows through `Decimal.div`. -/
def MajikMoney.divide (m : MajikMoney) (divisor : DecVal) (rounding : Rounding) :
    MajikMoney :=
  MajikMoney.make ((m.amount.div divisor).toDP rounding) (some m.currency)

/-- `invertDivide`: divides a scalar by this amount in major units; fails
when the major amount is zero. -/
def MajikMoney.invertDivide (m : MajikMoney) (dividend : DecVal)
    (rounding : Rounding) : Except String MajikMoney :=
  let majorThis := m.toMajorDecimal
  if majorThis.isZero then .error "Cannot divide by zero money amount"
  else MajikMoney.fromMajor (dividend.div majorThis) m.currency.code rounding

/-- `ratio`: same-currency assertion, zero-divisor check, then the quotient
(returned through `toNumber()`, modelled as the exact value). -/
def MajikMoney.ratio (m other : MajikMoney) : Except String DecVal :=
  (m.assertSameCurrency other).bind fun _ =>
    if other.amount.isZero then .error "Division by zero in MajikMoney.ratio()"
    else .ok (m.amount.div other.amount)

/-- `equals`: code equality and amount equality — no assertion, a mismatch
returns `false`. -/
def MajikMoney.equals (a b : MajikMoney) : Bool :=
  a.currency.code == b.currency.code && a.amount.deq b.amount

/-- `negate`. -/
def MajikMoney.negate (m : MajikMoney) : MajikMoney :=
  MajikMoney.make m.amount.neg (some m.currency)

/-- `greaterThan`: assertion, then exact comparison. -/
def MajikMoney.greaterThan (a b : MajikMoney) : Except String Bool :=
  (a.assertSameCurrency b).map fun _ => a.amount.gtb b.amount

/-- `lessThan`: assertion, then exact comparison. -/
def MajikMoney.lessThan (a b : MajikMoney) : Except String Bool :=
  (a.assertSameCurrency b).map fun _ => a.amount.ltb b.amount

/-- `greaterThanOrEqual`: assertion, then exact comparison. -/
def MajikMoney.greaterThanOrEqual (a b : MajikMoney) : Except String Bool :=
  (a.assertSameCurrency b).map fun _ => a.amount.gteb b.amount

/-- `lessThanOrEqual`: assertion, then exact comparison. -/
def MajikMoney.lessThanOrEqual (a b : MajikMoney) : Except String Bool :=
  (a.assertSameCurrency b).map fun _ => a.amount.lteb b.amount

/-- The body of `allocate`: `ratios.map((ratio, i) => ...)` with the closure
variable `remainder`, written as a recursion in which the emptiness of the
tail plays the role of the `i === ratios.length - 1` test.  Each share is
`amount * ratio / total` rounded with `ROUND_DOWN`; the remainder decreases
by each share, and the last element receives `share + remainder`. -/
def MajikMoney.allocGo (amt : DecVal) (total : ℚ) (c : CurrencyDefinition) :
    List ℚ → DecVal → List MajikMoney
  | [], _ => []
  | r :: rest, rem =>
    let share := ((amt.mul (.fin r)).div (.fin total)).toDP .down
    let rem2 := rem.sub share
    MajikMoney.make (if rest.isEmpty then share.add rem2 else share) (some c)
      :: MajikMoney.allocGo amt total c rest rem2

/-- `allocate`: total ratio by `reduce` with `+`, then the indexed map
above.  The source performs no validation on `ratios`. -/
def MajikMoney.allocate (m : MajikMoney) (ratios : List ℚ) : List MajikMoney :=
  let total := ratios.foldl (· + ·) 0
  MajikMoney.allocGo m.amount total m.currency ratios m.amount

/-- `evenSplit`: fails when `parts <= 0`, otherwise allocates over a list
of ones. -/
def MajikMoney.evenSplit (m : MajikMoney) (parts : ℤ) :
    Except String (List MajikMoney) :=
  if parts ≤ 0 then .error "Number of parts must be > 0"
  else .ok (m.allocate (List.replicate parts.toNat 1))

/-- `convert`: major source value (through `toMajor`, see its note), times
the rate, then `fromMajor` on the target code. -/
def MajikMoney.convert (m : MajikMoney) (rate : DecVal)
    (targetCurrency : CurrencyDefinition) (rounding : Rounding) :
    Except String MajikMoney :=
  let majorSource := m.toMajor
  let majorTarget := majorSource.mul rate
  MajikMoney.fromMajor majorTarget targetCurrency.code rounding

/-- `convertFromQuoted`: inverts the quoted rate (`1 / quotedRate`, with no
zero check — `Decimal.div` yields an infinity) and delegates to `convert`. -/
def MajikMoney.convertFromQuoted (m : MajikMoney) (quotedRate : DecVal)
    (targetCurrency : CurrencyDefinition) (rounding : Rounding) :
    Except String MajikMoney :=
  m.convert ((DecVal.fin 1).div quotedRate) targetCurrency rounding

/-- Total extension of the JS sort comparator `a.toMinor() - b.toMinor()`:
on finite amounts it is the numeric order (and the comparator sign is exact
whenever the magnitudes are at most `2^53`); the special values are ordered
`NaN`, then `-Infinity`, then finite values, then `Infinity`, making the
relation total and transitive. -/
def DecVal.sortLeb : DecVal → DecVal → Bool
  | .nan, _ => true
  | _, .nan => false
  | .negInf, _ => true
  | _, .negInf => false
  | .fin a, .fin b => decide (a ≤ b)
  | _, .posInf => true
  | .posInf, _ => false

/-- The sort relation on `MajikMoney` used by `median`. -/
def MajikMoney.sortRel (a b : MajikMoney) : Prop :=
  a.amount.sortLeb b.amount = true

instance : DecidableRel MajikMoney.sortRel := fun a b => by
  unfold MajikMoney.sortRel; infer_instance

/-- `median`: empty check, uniform-currency check, stable sort by the
minor-unit comparator, then the middle element (odd length) or the rounded
half of the sum of the two middle elements (even length).  The `getD`
defaults are never reached: the list is nonempty, and an even length is at
least two. -/
def MajikMoney.median (values : List MajikMoney) : Except String MajikMoney :=
  match values with
  | [] => .error "No values provided"
  | v0 :: _ =>
    if values.all (fun v => v.currency.code == v0.currency.code) then
      let sorted := List.insertionSort MajikMoney.sortRel values
      let mid := values.length / 2
      if values.length % 2 = 0 then
        ((sorted.getD (mid - 1) v0).add (sorted.getD mid v0)).map
          (fun s => s.divide (.fin 2) .halfEven)
      else .ok (sorted.getD mid v0)
    else .error "Currency mismatch in median"

/-- The truncated share of one ratio in `allocate`:
`amount * ratio / totalRatio` rounded with `ROUND_DOWN` (toward zero). -/
def truncShare (n : ℤ) (total : ℚ) (r : ℚ) : ℤ :=
  roundQ .down ((n : ℚ) * r / total)

/-! ## Basic lemmas about rounding and the constructor -/

theorem roundQ_intCast (r : Rounding) (z : ℤ) : roundQ r ((z : ℤ) : ℚ) = z := by
  cases r <;> simp [roundQ, halfRound, ratFloor_eq, ratCeil_eq] <;> norm_num

theorem toDP_intCast (r : Rounding) (z : ℤ) :
    DecVal.toDP r (.fin ((z : ℤ) : ℚ)) = .fin ((z : ℤ) : ℚ) := by
  simp [DecVal.toDP, roundQ_intCast]

theorem make_intCast (z : ℤ) (c : Option CurrencyDefinition) :
    MajikMoney.make (.fin ((z : ℤ) : ℚ)) c = ⟨.fin ((z : ℤ) : ℚ), c.getD PHPDef⟩ := by
  simp [MajikMoney.make, toDP_intCast]

/-- Whatever reaches the constructor, a finite stored amount is an integer:
the constructor rounds to zero decimal places. -/
theorem make_amount_int (v : DecVal) (c : Option CurrencyDefinition) (q : ℚ)
    (h : (MajikMoney.make v c).amount = .fin q) : ∃ z : ℤ, q = (z : ℚ) := by
  cases v with
  | fin q0 =>
    simp [MajikMoney.make, DecVal.toDP] at h
    exact ⟨roundQ .halfEven q0, h.symm⟩
  | posInf => simp [MajikMoney.make, DecVal.toDP] at h
  | negInf => simp [MajikMoney.make, DecVal.toDP] at h
  | nan => simp [MajikMoney.make, DecVal.toDP] at h

/-- The half-even rounding used by the constructor rounds to a nearest
integer and resolves exact halves to the even neighbour. -/
theorem halfEven_round_spec (q : ℚ) :
    |((roundQ .halfEven q : ℤ) : ℚ) - q| ≤ 1/2 ∧
    (|((roundQ .halfEven q : ℤ) : ℚ) - q| = 1/2 → roundQ .halfEven q % 2 = 0) := by
  have hf : ((⌊q⌋ : ℤ) : ℚ) ≤ q := Int.floor_le q
  have hf2 : q < (⌊q⌋ : ℚ) + 1 := Int.lt_floor_add_one q
  have hq : roundQ .halfEven q
      = if q - (⌊q⌋ : ℚ) < 1/2 then ⌊q⌋
        else if 1/2 < q - (⌊q⌋ : ℚ) then ⌊q⌋ + 1
        else if ⌊q⌋ % 2 = 0 then ⌊q⌋ else ⌊q⌋ + 1 := by
    simp only [roundQ, halfRound, ratFloor_eq]
  rw [hq]
  rcases lt_trichotomy (q - (⌊q⌋ : ℚ)) (1/2) with h | h | h
  · rw [if_pos h]
    have habs : |((⌊q⌋ : ℤ) : ℚ) - q| = q - (⌊q⌋ : ℚ) := by
      rw [abs_sub_comm, abs_of_nonneg (by linarith)]
    constructor
    · rw [habs]; linarith
    · intro hc; rw [habs] at hc; linarith
  · rw [if_neg (by linarith), if_neg (by linarith)]
    rcases Int.emod_two_eq ⌊q⌋ with he | he
    · rw [if_pos he]
      have habs : |((⌊q⌋ : ℤ) : ℚ) - q| = q - (⌊q⌋ : ℚ) := by
        rw [abs_sub_comm, abs_of_nonneg (by linarith)]
      exact ⟨by rw [habs]; linarith, fun _ => he⟩
    · rw [if_neg (by omega)]
      have habs : |((⌊q⌋ + 1 : ℤ) : ℚ) - q| = (⌊q⌋ : ℚ) + 1 - q := by
        push_cast
        rw [abs_of_nonneg (by linarith)]
      constructor
      · rw [habs]; linarith
      · intro _; omega
  · rw [if_neg (by linarith), if_pos h]
    have habs : |((⌊q⌋ + 1 : ℤ) : ℚ) - q| = (⌊q⌋ : ℚ) + 1 - q := by
      push_cast
      rw [abs_of_nonneg (by linarith)]
    constructor
    · rw [habs]; linarith
    · intro hc; rw [habs] at hc; linarith

/-- An `Except.ok` result of `add` is the constructor applied to the exact
sum. -/
theorem add_ok_shape {a b res : MajikMoney} (h : a.add b = .ok res) :
    res = MajikMoney.make (a.amount.add b.amount) (some a.currency) := by
  simp only [MajikMoney.add, MajikMoney.assertSameCurrency] at h
  split at h
  · simp only [Except.map] at h
    exact (Except.ok.injEq _ _).mp h |>.symm
  · simp only [Except.map] at h
    exact absurd h (by simp)

/-- An `Except.ok` result of `subtract` is the constructor applied to the
exact difference. -/
theorem subtract_ok_shape {a b res : MajikMoney} (h : a.subtract b = .ok res) :
    res = MajikMoney.make (a.amount.sub b.amount) (some a.currency) := by
  simp only [MajikMoney.subtract, MajikMoney.assertSameCurrency] at h
  split at h
  · simp only [Except.map] at h
    exact (Except.ok.injEq _ _).mp h |>.symm
  · simp only [Except.map] at h
    exact absurd h (by simp)

/-- An `Except.ok` result of `fromMajor` is the constructor applied to the
scaled and rounded amount. -/
theorem fromMajor_ok_shape {v : DecVal} {code : String} {r : Rounding}
    {res : MajikMoney} (h : MajikMoney.fromMajor v code r = .ok res) :
    ∃ c, lookupCurrency code = some c ∧
      res = MajikMoney.make ((v.mul (.fin ((10 : ℚ) ^ c.minorUnits))).toDP r) (some c) := by
  unfold MajikMoney.fromMajor at h
  split at h
  · exact absurd h (by simp)
  · next c hc => exact ⟨c, hc, ((Except.ok.injEq _ _).mp h).symm⟩

/-- An `Except.ok` result of `parseFromJSON` is the constructor applied to
the parsed amount. -/
theorem parseFromJSON_ok_shape {data : MajikMoneyJSON} {res : MajikMoney}
    (h : MajikMoney.parseFromJSON data = .ok res) :
    ∃ v c, res = MajikMoney.make v (some c) := by
  unfold MajikMoney.parseFromJSON at h
  split at h
  · exact absurd h (by simp)
  · split at h
    · exact ⟨_, _, ((Except.ok.injEq _ _).mp h).symm⟩
    · split at h
      · exact ⟨_, _, ((Except.ok.injEq _ _).mp h).symm⟩
      · exact absurd h (by simp)

/-- Every element produced by the allocation loop is a constructor
application with the common currency. -/
theorem allocGo_mem_shape {amt : DecVal} {total : ℚ} {c : CurrencyDefinition}
    {rs : List ℚ} {rem : DecVal} {p : MajikMoney}
    (hp : p ∈ MajikMoney.allocGo amt total c rs rem) :
    ∃ v, p = MajikMoney.make v (some c) := by
  induction rs generalizing rem with
  | nil => simp [MajikMoney.allocGo] at hp
  | cons r rest ih =>
    simp only [MajikMoney.allocGo, List.mem_cons] at hp
    rcases hp with h | h
    · exact ⟨_, h⟩
    · exact ih h

/-! ## Claim C4: fromMinor on non-integer input -/

/-- **C4 counterexample**: the claim says `fromMinor(1.5, code)` truncates and
stores `1` (and `fromMinor(-1.5, code)` stores `-1`).  In the code the
constructor applies `toDecimalPlaces(0)` with the configured default
`ROUND_HALF_EVEN`, so `1.5` is stored as `2` and `-1.5` as `-2`. -/
theorem fromMinor_truncation_counterexample :
    (MajikMoney.fromMinor (.fin (3/2)) "USD").amount = .fin 2 ∧
    (MajikMoney.fromMinor (.fin (3/2)) "USD").amount ≠ .fin 1 ∧
    (MajikMoney.fromMinor (.fin (-3/2)) "USD").amount = .fin (-2) ∧
    (MajikMoney.fromMinor (.fin (-3/2)) "USD").amount ≠ .fin (-1) := by
  refine ⟨?_, ?_, ?_, ?_⟩ <;>
    simp [MajikMoney.fromMinor, MajikMoney.make, DecVal.toDP, roundQ, halfRound,
      ratFloor_eq] <;>
    norm_num [Int.fract]

/-- **C4 (amended)**: `fromMinor(v, code)` stores `v` unchanged when `v` is an
integer; a non-integer `v` is not truncated but rounded to a nearest integer
with ties to the even neighbour (`ROUND_HALF_EVEN`, the configured default
applied by the constructor). -/
theorem fromMinor_rounds_half_even (q : ℚ) (code : String) :
    ∃ z : ℤ, (MajikMoney.fromMinor (.fin q) code).amount = .fin (z : ℚ) ∧
      |(z : ℚ) - q| ≤ 1/2 ∧
      (|(z : ℚ) - q| = 1/2 → z % 2 = 0) ∧
      (∀ w : ℤ, q = (w : ℚ) → z = w) := by
  refine ⟨roundQ .halfEven q, ?_, (halfEven_round_spec q).1, (halfEven_round_spec q).2, ?_⟩
  · simp [MajikMoney.fromMinor, MajikMoney.make, DecVal.toDP]
  · intro w hw
    subst hw
    exact roundQ_intCast .halfEven w

/-! ## Claim C5: unsupported currency codes -/

/-- **C5 counterexample**: `"XXX"` is not in the table, yet
`fromMinor(100, "XXX")` does not fail — the `undefined` lookup result makes
the constructor fall back to its default parameter, silently substituting
the PHP currency. -/
theorem fromMinor_unknown_code_defaults_php :
    lookupCurrency "XXX" = none ∧
    MajikMoney.fromMinor (.fin 100) "XXX" = ⟨.fin 100, PHPDef⟩ := by
  constructor
  · decide
  · have h : lookupCurrency "XXX" = none := by decide
    simp [MajikMoney.fromMinor, MajikMoney.make, h, DecVal.toDP, roundQ, halfRound,
      ratFloor_eq] <;> norm_num [Int.fract]

/-- **C5 (amended)**: for a code absent from the table, `fromMajor` and
`parseFromJSON` fail with their unsupported-currency errors, but `fromMinor`
does not fail: it silently substitutes the default PHP currency. -/
theorem unsupported_currency_behavior :
    (∀ (v : DecVal) (code : String) (r : Rounding), lookupCurrency code = none →
      MajikMoney.fromMajor v code r = .error "Unsupported currency") ∧
    (∀ data : MajikMoneyJSON, lookupCurrency data.currency = none →
      MajikMoney.parseFromJSON data
        = .error ("Unsupported currency " ++ data.currency)) ∧
    (∀ (v : DecVal) (code : String), lookupCurrency code = none →
      (MajikMoney.fromMinor v code).currency = PHPDef) := by
  refine ⟨?_, ?_, ?_⟩
  · intro v code r h
    simp [MajikMoney.fromMajor, h]
  · intro data h
    simp [MajikMoney.parseFromJSON, h]
  · intro v code h
    simp [MajikMoney.fromMinor, MajikMoney.make, h]

/-- Witness for C5 at the concrete absent code `"ZZZ"`. -/
theorem unsupported_currency_behavior_witness :
    MajikMoney.fromMajor (.fin 5) "ZZZ" .halfEven = .error "Unsupported currency" ∧
    (MajikMoney.fromMinor (.fin 5) "ZZZ").currency = PHPDef :=
  ⟨unsupported_currency_behavior.1 (.fin 5) "ZZZ" .halfEven (by decide),
   unsupported_currency_behavior.2.2 (.fin 5) "ZZZ" (by decide)⟩

/-! ## Claim C8: currency mismatch in binary operations -/

/-- **C8 counterexample**: the claim says `equals` on differing currencies
fails with `CurrencyMismatch` and never returns a boolean.  The code has no
assertion in `equals`: it returns the boolean `false`. -/
theorem equals_mismatch_returns_false :
    MajikMoney.equals (MajikMoney.fromMinor (.fin 100) "USD")
      (MajikMoney.fromMinor (.fin 100) "EUR") = false := by
  decide

/-- **C8 (amended)**: on differing currency codes, `add`, `subtract`,
`greaterThan`, `lessThan`, `greaterThanOrEqual` and `lessThanOrEqual` all
fail with the currency-mismatch error, while `equals` does not fail — it
returns `false`. -/
theorem currency_mismatch_behavior (a b : MajikMoney)
    (h : a.currency.code ≠ b.currency.code) :
    a.add b = .error ("Currency mismatch: " ++ a.currency.code ++ " vs " ++ b.currency.code) ∧
    a.subtract b = .error ("Currency mismatch: " ++ a.currency.code ++ " vs " ++ b.currency.code) ∧
    a.greaterThan b = .error ("Currency mismatch: " ++ a.currency.code ++ " vs " ++ b.currency.code) ∧
    a.lessThan b = .error ("Currency mismatch: " ++ a.currency.code ++ " vs " ++ b.currency.code) ∧
    a.greaterThanOrEqual b = .error ("Currency mismatch: " ++ a.currency.code ++ " vs " ++ b.currency.code) ∧
    a.lessThanOrEqual b = .error ("Currency mismatch: " ++ a.currency.code ++ " vs " ++ b.currency.code) ∧
    a.equals b = false := by
  have ha : a.assertSameCurrency b
      = .error ("Currency mismatch: " ++ a.currency.code ++ " vs " ++ b.currency.code) := by
    simp [MajikMoney.assertSameCurrency, h]
  have hb : (a.currency.code == b.currency.code) = false := by
    exact beq_eq_false_iff_ne.mpr h
  refine ⟨?_, ?_, ?_, ?_, ?_, ?_, ?_⟩ <;>
    simp [MajikMoney.add, MajikMoney.subtract, MajikMoney.greaterThan, MajikMoney.lessThan,
      MajikMoney.greaterThanOrEqual, MajikMoney.lessThanOrEqual, MajikMoney.equals,
      ha, hb, Except.map]

/-- Witness for C8 at concrete USD and EUR amounts. -/
theorem currency_mismatch_behavior_witness :
    (MajikMoney.fromMinor (.fin 1) "USD").add (MajikMoney.fromMinor (.fin 1) "EUR")
      = .error "Currency mismatch: USD vs EUR" := by
  have hc1 : (MajikMoney.fromMinor (.fin 1) "USD").currency.code = "USD" := by decide
  have hc2 : (MajikMoney.fromMinor (.fin 1) "EUR").currency.code = "EUR" := by decide
  have h := (currency_mismatch_behavior (MajikMoney.fromMinor (.fin 1) "USD")
    (MajikMoney.fromMinor (.fin 1) "EUR") (by decide)).1
  rw [hc1, hc2] at h
  exact h

/-! ## Claim C3: division-like operations on zero divisors -/

/-- **C3 counterexample**: the claim says `divide(0)` and
`convertFromQuoted(0, ...)` fail with `DivisionByZero`.  Neither has a zero
check: `divide(0)` returns a Money whose amount is `Infinity`, and
`convertFromQuoted(0, PHP)` returns `ok` with an `Infinity`-amount Money. -/
theorem divide_by_zero_returns_value_counterexample :
    ((MajikMoney.fromMinor (.fin 100) "USD").divide (.fin 0) .halfEven).amount
      = .posInf ∧
    (MajikMoney.fromMinor (.fin 100) "USD").convertFromQuoted (.fin 0) PHPDef .halfEven
      = .ok ⟨.posInf, PHPDef⟩ := by
  have hu : lookupCurrency "USD" = some ⟨"USD", "$", 2, "US Dollar"⟩ := by decide
  have hp : lookupCurrency "PHP" = some PHPDef := by decide
  constructor
  · simp [MajikMoney.fromMinor, MajikMoney.make, MajikMoney.divide, hu,
      DecVal.toDP, DecVal.div, roundQ, halfRound, ratFloor_eq] <;>
    norm_num [Int.fract]
  · simp [MajikMoney.fromMinor, MajikMoney.make, MajikMoney.convertFromQuoted,
      MajikMoney.convert, MajikMoney.toMajor, MajikMoney.fromMajor, hu, hp, PHPDef,
      DecVal.toDP, DecVal.div, DecVal.mul, roundQ, halfRound, ratFloor_eq] <;>
    norm_num [Int.fract]

/-- **C3 (amended)**: `ratio` fails on a zero-amount divisor and
`invertDivide` fails on a zero-amount receiver, as claimed; but `divide`
with divisor zero does not fail — it produces a Money with a non-finite
amount — and `convertFromQuoted` with a zero quoted rate does not fail
either, returning an `ok` result for any target currency in the table. -/
theorem division_by_zero_behavior :
    (∀ m z : MajikMoney, m.currency.code = z.currency.code → z.amount = .fin 0 →
      m.ratio z = .error "Division by zero in MajikMoney.ratio()") ∧
    (∀ (m : MajikMoney) (d : DecVal) (r : Rounding), m.amount = .fin 0 →
      m.invertDivide d r = .error "Cannot divide by zero money amount") ∧
    (∀ (m : MajikMoney) (q : ℚ) (r : Rounding), m.amount = .fin q →
      ((m.divide (.fin 0) r).amount).isFinite = false) ∧
    (∀ (m : MajikMoney) (t : CurrencyDefinition) (r : Rounding)
      (c : CurrencyDefinition), lookupCurrency t.code = some c →
      ∃ res, m.convertFromQuoted (.fin 0) t r = .ok res) := by
  refine ⟨?_, ?_, ?_, ?_⟩
  · intro m z hmz hz
    simp [MajikMoney.ratio, MajikMoney.assertSameCurrency, hmz, hz, DecVal.isZero,
      Except.bind]
  · intro m d r hm
    have hp : ((10 : ℚ) ^ m.currency.minorUnits) ≠ 0 := by positivity
    simp [MajikMoney.invertDivide, MajikMoney.toMajorDecimal, hm, DecVal.div, hp,
      DecVal.isZero]
  · intro m q r hm
    rcases lt_trichotomy q 0 with hq | hq | hq
    · simp [MajikMoney.divide, MajikMoney.make, hm, DecVal.div, DecVal.toDP,
        DecVal.isFinite, hq.ne, not_lt.mpr hq.le]
    · simp [MajikMoney.divide, MajikMoney.make, hm, hq, DecVal.div, DecVal.toDP,
        DecVal.isFinite]
    · simp [MajikMoney.divide, MajikMoney.make, hm, DecVal.div, DecVal.toDP,
        DecVal.isFinite, hq.ne.symm, hq]
  · intro m t r c hc
    exact ⟨MajikMoney.make
      ((((m.toMajor).mul ((DecVal.fin 1).div (.fin 0))).mul
        (.fin ((10 : ℚ) ^ c.minorUnits))).toDP r) (some c),
      by simp only [MajikMoney.convertFromQuoted, MajikMoney.convert,
        MajikMoney.fromMajor, hc]⟩

/-- Witness for C3 at concrete inputs. -/
theorem division_by_zero_behavior_witness :
    (MajikMoney.fromMinor (.fin 10) "USD").ratio (MajikMoney.fromMinor (.fin 0) "USD")
      = .error "Division by zero in MajikMoney.ratio()" ∧
    ∃ res, (MajikMoney.fromMinor (.fin 10) "USD").convertFromQuoted
      (.fin 0) PHPDef .halfEven = .ok res := by
  constructor
  · refine division_by_zero_behavior.1 _ _ (by decide) ?_
    simp [MajikMoney.fromMinor, MajikMoney.make, DecVal.toDP, roundQ, halfRound,
      ratFloor_eq] <;> norm_num [Int.fract]
  · exact division_by_zero_behavior.2.2.2 _ PHPDef .halfEven PHPDef (by decide)

/-! ## Claim C6: stored amounts are integers -/

/-- **C6 counterexample**: a Money produced by `divide` with divisor zero
stores `Infinity`, which is not an integer-valued amount. -/
theorem nonfinite_amount_counterexample :
    ((MajikMoney.fromMinor (.fin 7) "EUR").divide (.fin 0) .halfUp).amount
      = .posInf ∧
    DecVal.isFinite .posInf = false := by
  constructor
  · have h : lookupCurrency "EUR" = some ⟨"EUR", "€", 2, "Euro"⟩ := by decide
    simp [MajikMoney.fromMinor, MajikMoney.make, MajikMoney.divide, h,
      DecVal.toDP, DecVal.div, roundQ, halfRound, ratFloor_eq] <;>
    norm_num [Int.fract]
  · rfl

/-- **C6 (amended)**: every factory and operation returns instances built by
the constructor, which rounds to zero decimal places; hence any instance
whose stored amount is finite stores an integer.  Non-finite amounts
(infinities, NaN) can arise — e.g. from zero divisors — and are the only
exception. -/
theorem finite_amounts_are_integers :
    (∀ (v : DecVal) (c : Option CurrencyDefinition) (q : ℚ),
      (MajikMoney.make v c).amount = .fin q → ∃ z : ℤ, q = (z : ℚ)) ∧
    (∀ (a b res : MajikMoney) (q : ℚ), a.add b = .ok res →
      res.amount = .fin q → ∃ z : ℤ, q = (z : ℚ)) ∧
    (∀ (a b res : MajikMoney) (q : ℚ), a.subtract b = .ok res →
      res.amount = .fin q → ∃ z : ℤ, q = (z : ℚ)) ∧
    (∀ (m : MajikMoney) (f : DecVal) (r : Rounding) (q : ℚ),
      (m.multiply f r).amount = .fin q → ∃ z : ℤ, q = (z : ℚ)) ∧
    (∀ (m : MajikMoney) (d : DecVal) (r : Rounding) (q : ℚ),
      (m.divide d r).amount = .fin q → ∃ z : ℤ, q = (z : ℚ)) ∧
    (∀ (m : MajikMoney) (q : ℚ), m.negate.amount = .fin q → ∃ z : ℤ, q = (z : ℚ)) ∧
    (∀ (v : DecVal) (code : String) (q : ℚ),
      (MajikMoney.fromMinor v code).amount = .fin q → ∃ z : ℤ, q = (z : ℚ)) ∧
    (∀ (v : DecVal) (code : String) (r : Rounding) (res : MajikMoney) (q : ℚ),
      MajikMoney.fromMajor v code r = .ok res → res.amount = .fin q →
      ∃ z : ℤ, q = (z : ℚ)) ∧
    (∀ (data : MajikMoneyJSON) (res : MajikMoney) (q : ℚ),
      MajikMoney.parseFromJSON data = .ok res → res.amount = .fin q →
      ∃ z : ℤ, q = (z : ℚ)) ∧
    (∀ (m : MajikMoney) (rs : List ℚ) (p : MajikMoney) (q : ℚ),
      p ∈ m.allocate rs → p.amount = .fin q → ∃ z : ℤ, q = (z : ℚ)) := by
  refine ⟨make_amount_int, ?_, ?_, ?_, ?_, ?_, ?_, ?_, ?_, ?_⟩
  · intro a b res q hok hq
    exact make_amount_int _ _ _ (add_ok_shape hok ▸ hq)
  · intro a b res q hok hq
    exact make_amount_int _ _ _ (subtract_ok_shape hok ▸ hq)
  · intro m f r q hq
    exact make_amount_int _ _ _ hq
  · intro m d r q hq
    exact make_amount_int _ _ _ hq
  · intro m q hq
    exact make_amount_int _ _ _ hq
  · intro v code q hq
    exact make_amount_int _ _ _ hq
  · intro v code r res q hok hq
    obtain ⟨c, _, hres⟩ := fromMajor_ok_shape hok
    exact make_amount_int _ _ _ (hres ▸ hq)
  · intro data res q hok hq
    obtain ⟨v, c, hres⟩ := parseFromJSON_ok_shape hok
    exact make_amount_int _ _ _ (hres ▸ hq)
  · intro m rs p q hp hq
    obtain ⟨v, hpv⟩ := allocGo_mem_shape hp
    exact make_amount_int _ _ _ (hpv ▸ hq)

/-- Witness for C6: the `fromMinor` clause evaluated at `100` minor USD. -/
theorem finite_amounts_are_integers_witness : ∃ z : ℤ, (100 : ℚ) = (z : ℚ) := by
  refine finite_amounts_are_integers.2.2.2.2.2.2.1 (.fin 100) "USD" 100 ?_
  simp [MajikMoney.fromMinor, MajikMoney.make, DecVal.toDP, roundQ, halfRound,
    ratFloor_eq] <;> norm_num [Int.fract]

/-! ## Claim C1: allocation -/

theorem decMul_fin (a b : ℚ) : (DecVal.fin a).mul (.fin b) = .fin (a * b) := rfl

theorem decDiv_fin (a b : ℚ) (h : b ≠ 0) :
    (DecVal.fin a).div (.fin b) = .fin (a / b) := by
  simp [DecVal.div, h]

theorem decSub_fin (a b : ℚ) : (DecVal.fin a).sub (.fin b) = .fin (a - b) := by
  simp [DecVal.sub, DecVal.neg, DecVal.add, sub_eq_add_neg]

theorem decAdd_fin (a b : ℚ) : (DecVal.fin a).add (.fin b) = .fin (a + b) := rfl

theorem toDP_down_fin (q : ℚ) :
    DecVal.toDP .down (.fin q) = .fin ((roundQ .down q : ℤ) : ℚ) := rfl

/-- One step of the allocation loop, unfolded. -/
theorem allocGo_cons (amt : DecVal) (total : ℚ) (c : CurrencyDefinition)
    (r : ℚ) (rest : List ℚ) (rem : DecVal) :
    MajikMoney.allocGo amt total c (r :: rest) rem
      = MajikMoney.make
          (if rest.isEmpty then
            (((amt.mul (.fin r)).div (.fin total)).toDP .down).add
              (rem.sub (((amt.mul (.fin r)).div (.fin total)).toDP .down))
          else ((amt.mul (.fin r)).div (.fin total)).toDP .down) (some c)
        :: MajikMoney.allocGo amt total c rest
            (rem.sub (((amt.mul (.fin r)).div (.fin total)).toDP .down)) := rfl

/-- Closed form of the allocation loop on a finite integer amount: all but
the last element carry their truncated shares, and the last element carries
the running remainder plus its own share — i.e. the initial remainder minus
all earlier shares. -/
theorem allocGo_closed_form (n : ℤ) (total : ℚ) (c : CurrencyDefinition)
    (htot : total ≠ 0) :
    ∀ (rs : List ℚ) (z : ℤ), rs ≠ [] →
      MajikMoney.allocGo (.fin (n : ℚ)) total c rs (.fin (z : ℚ))
        = (rs.dropLast.map fun r =>
            (⟨.fin ((truncShare n total r : ℤ) : ℚ), c⟩ : MajikMoney))
          ++ [⟨.fin (((z - (rs.dropLast.map (truncShare n total)).sum : ℤ) : ℚ)), c⟩] := by
  intro rs
  induction rs with
  | nil => intro z h; exact absurd rfl h
  | cons r rest ih =>
    intro z _
    cases rest with
    | nil =>
      rw [allocGo_cons]
      simp only [MajikMoney.allocGo, List.isEmpty_nil, eq_self_iff_true, if_true,
        List.dropLast_single, List.map_nil, List.nil_append, List.sum_nil]
      rw [decMul_fin, decDiv_fin _ _ htot, toDP_down_fin, decSub_fin, decAdd_fin]
      have hz : ((roundQ .down ((n : ℚ) * r / total) : ℤ) : ℚ)
          + ((z : ℚ) - ((roundQ .down ((n : ℚ) * r / total) : ℤ) : ℚ))
          = ((z : ℤ) : ℚ) := by ring
      rw [hz, make_intCast]
      simp
    | cons r2 rest2 =>
      rw [allocGo_cons]
      simp only [List.isEmpty_cons, Bool.false_eq_true, if_false]
      simp only [decMul_fin, decDiv_fin _ _ htot, toDP_down_fin, decSub_fin]
      have hz : ((z : ℚ) - ((roundQ .down ((n : ℚ) * r / total) : ℤ) : ℚ))
          = (((z - truncShare n total r : ℤ)) : ℚ) := by
        simp only [truncShare]
        push_cast
        ring
      rw [hz, ih (z - truncShare n total r) (by simp), make_intCast]
      have hdl : (r :: r2 :: rest2).dropLast = r :: (r2 :: rest2).dropLast := rfl
      rw [hdl]
      simp only [List.map_cons, List.sum_cons, List.cons_append, Option.getD_some]
      congr 1
      ring

theorem foldl_decAdd_fins (zs : List ℤ) (a : ℤ) :
    (zs.map fun z => DecVal.fin ((z : ℤ) : ℚ)).foldl DecVal.add (.fin ((a : ℤ) : ℚ))
      = .fin ((a + zs.sum : ℤ) : ℚ) := by
  induction zs generalizing a with
  | nil => simp
  | cons z zs ih =>
    simp only [List.map_cons, List.foldl_cons, decAdd_fin]
    rw [show ((a : ℚ) + ((z : ℤ) : ℚ)) = ((a + z : ℤ) : ℚ) by push_cast; ring]
    rw [ih (a + z), List.sum_cons]
    congr 1
    push_cast
    ring

theorem foldl_add_eq_sum (l : List ℚ) (a : ℚ) : l.foldl (· + ·) a = a + l.sum := by
  induction l generalizing a with
  | nil => simp
  | cons x xs ih => simp [ih, add_assoc]

/-- The exact-sum core of allocation: over a finite integer amount and any
ratio list with nonzero total, the parts fold-sum back to the amount. -/
theorem allocate_sum_exact (m : MajikMoney) (n : ℤ) (rs : List ℚ)
    (hm : m.amount = .fin ((n : ℤ) : ℚ)) (hne : rs ≠ [])
    (htot : rs.foldl (· + ·) 0 ≠ 0) :
    ((m.allocate rs).map MajikMoney.amount).foldl DecVal.add (.fin 0)
      = .fin ((n : ℤ) : ℚ) := by
  have hc := allocGo_closed_form n (rs.foldl (· + ·) 0) m.currency htot rs n hne
  unfold MajikMoney.allocate
  simp only [hm]
  rw [hc, List.map_append, List.map_map]
  have hcomp : (MajikMoney.amount ∘ fun r =>
      (⟨.fin ((truncShare n (rs.foldl (· + ·) 0) r : ℤ) : ℚ), m.currency⟩ : MajikMoney))
      = fun r => DecVal.fin ((truncShare n (rs.foldl (· + ·) 0) r : ℤ) : ℚ) := rfl
  rw [hcomp, List.foldl_append]
  rw [show (fun r => DecVal.fin ((truncShare n (rs.foldl (· + ·) 0) r : ℤ) : ℚ))
      = ((fun z : ℤ => DecVal.fin ((z : ℤ) : ℚ)) ∘ truncShare n (rs.foldl (· + ·) 0))
      from rfl]
  rw [← List.map_map, show (DecVal.fin 0) = .fin ((0 : ℤ) : ℚ) by norm_num,
    foldl_decAdd_fins]
  simp only [List.map_cons, List.map_nil, List.foldl_cons, List.foldl_nil, decAdd_fin]
  rw [show (((0 + (rs.dropLast.map (truncShare n (rs.foldl (· + ·) 0))).sum : ℤ) : ℚ)
      + ((n - (rs.dropLast.map (truncShare n (rs.foldl (· + ·) 0))).sum : ℤ) : ℚ))
      = ((n : ℤ) : ℚ) by push_cast; ring]

theorem sum_map_dropLast_getLast {α : Type} (f : α → ℤ) (l : List α) (h : l ≠ []) :
    (l.map f).sum = (l.dropLast.map f).sum + f (l.getLast h) := by
  conv_lhs => rw [← List.dropLast_append_getLast h]
  simp

theorem getElem?_dropLast_of_lt {α : Type} (l : List α) (i : ℕ) (h : i + 1 < l.length) :
    l.dropLast[i]? = l[i]? := by
  induction l generalizing i with
  | nil => simp at h
  | cons x xs ih =>
    cases xs with
    | nil => simp at h
    | cons y ys =>
      cases i with
      | zero => simp [List.dropLast]
      | succ j =>
        have hj := ih j (by simpa using h)
        simpa [List.dropLast] using hj

/-- **C1 counterexample**: on the negative amount `-1` with ratios `[1, 1]`
the first (non-last) part is `0` — the `ROUND_DOWN` truncation toward zero
of `-0.5` — whereas the floor share demanded by the claim is
`⌊-1 * 1 / 2⌋ = -1`. -/
theorem allocate_floor_share_counterexample :
    ((MajikMoney.fromMinor (.fin (-1)) "USD").allocate [1, 1]).map MajikMoney.amount
      = [.fin 0, .fin (-1)] ∧
    (⌊((-1 : ℚ) * 1 / (1 + 1))⌋ : ℤ) = -1 := by
  have husd : lookupCurrency "USD" = some ⟨"USD", "$", 2, "US Dollar"⟩ := by decide
  have hmake : MajikMoney.fromMinor (.fin (-1)) "USD"
      = ⟨.fin (((-1 : ℤ)) : ℚ), ⟨"USD", "$", 2, "US Dollar"⟩⟩ := by
    unfold MajikMoney.fromMinor
    rw [husd, show ((-1 : ℚ)) = (((-1 : ℤ)) : ℚ) by norm_num, make_intCast]
    rfl
  have hsh : truncShare (-1) 2 1 = 0 := by
    simp only [truncShare, roundQ, ratCeil_eq, ratFloor_eq]
    norm_num
  constructor
  · rw [hmake]
    have halloc : (⟨.fin (((-1 : ℤ)) : ℚ), ⟨"USD", "$", 2, "US Dollar"⟩⟩ :
        MajikMoney).allocate [1, 1]
        = MajikMoney.allocGo (.fin (((-1 : ℤ)) : ℚ)) 2
            ⟨"USD", "$", 2, "US Dollar"⟩ [1, 1] (.fin (((-1 : ℤ)) : ℚ)) := by
      unfold MajikMoney.allocate
      norm_num
    rw [halloc,
      allocGo_closed_form (-1) 2 ⟨"USD", "$", 2, "US Dollar"⟩ (by norm_num) [1, 1]
        (-1) (by simp)]
    simp [hsh]
  · norm_num

/-- **C1 (amended)**: for a Money with finite integer amount `n` and a
non-empty list of non-negative ratios with positive sum, `allocate` returns
one part per ratio; each part before the last stores
`trunc(n * ratio / totalRatio)` (truncation toward zero, `ROUND_DOWN` — not
the floor claimed, which differs on negative amounts); the last part stores
its truncated share plus the accumulated remainder; the parts sum back to
`n` exactly, and they do so for every permutation of the ratio list. -/
theorem allocate_exact_truncated_shares (m : MajikMoney) (n : ℤ) (rs : List ℚ)
    (hm : m.amount = .fin ((n : ℤ) : ℚ)) (hne : rs ≠ [])
    (hnn : ∀ r ∈ rs, 0 ≤ r) (hpos : 0 < rs.foldl (· + ·) 0) :
    (m.allocate rs).length = rs.length ∧
    ((m.allocate rs).map MajikMoney.amount).foldl DecVal.add (.fin 0)
      = .fin ((n : ℤ) : ℚ) ∧
    (∀ (i : ℕ) (r : ℚ), i + 1 < rs.length → rs[i]? = some r →
      (m.allocate rs)[i]?
        = some ⟨.fin ((truncShare n (rs.foldl (· + ·) 0) r : ℤ) : ℚ), m.currency⟩) ∧
    (∀ rl : ℚ, rs.getLast? = some rl →
      (m.allocate rs).getLast?
        = some ⟨.fin (((truncShare n (rs.foldl (· + ·) 0) rl
            + (n - (rs.map (truncShare n (rs.foldl (· + ·) 0))).sum) : ℤ) : ℚ)),
            m.currency⟩) ∧
    (∀ rs2 : List ℚ, rs2.Perm rs →
      ((m.allocate rs2).map MajikMoney.amount).foldl DecVal.add (.fin 0)
        = .fin ((n : ℤ) : ℚ)) := by
  have htot : rs.foldl (· + ·) 0 ≠ 0 := ne_of_gt hpos
  have hlen : 0 < rs.length := List.length_pos.mpr hne
  have hall : m.allocate rs
      = (rs.dropLast.map fun r =>
          (⟨.fin ((truncShare n (rs.foldl (· + ·) 0) r : ℤ) : ℚ), m.currency⟩ : MajikMoney))
        ++ [⟨.fin (((n - (rs.dropLast.map (truncShare n (rs.foldl (· + ·) 0))).sum : ℤ) : ℚ)),
            m.currency⟩] := by
    unfold MajikMoney.allocate
    simp only [hm]
    exact allocGo_closed_form n (rs.foldl (· + ·) 0) m.currency htot rs n hne
  refine ⟨?_, allocate_sum_exact m n rs hm hne htot, ?_, ?_, ?_⟩
  · rw [hall]
    simp only [List.length_append, List.length_map, List.length_dropLast,
      List.length_singleton]
    omega
  · intro i r hi hr
    rw [hall]
    rw [List.getElem?_append,
      if_pos (by simp only [List.length_map, List.length_dropLast]; omega)]
    rw [List.getElem?_map, getElem?_dropLast_of_lt rs i hi, hr]
    rfl
  · intro rl hrl
    rw [hall, List.getLast?_concat]
    have hlast : rs.getLast hne = rl := by
      rw [List.getLast?_eq_getLast rs hne] at hrl
      exact Option.some_injective _ hrl
    have hsum : (rs.map (truncShare n (rs.foldl (· + ·) 0))).sum
        = (rs.dropLast.map (truncShare n (rs.foldl (· + ·) 0))).sum
          + truncShare n (rs.foldl (· + ·) 0) rl := by
      have := sum_map_dropLast_getLast (truncShare n (rs.foldl (· + ·) 0)) rs hne
      rw [hlast] at this
      exact this
    have hval : (n - (rs.dropLast.map (truncShare n (rs.foldl (· + ·) 0))).sum : ℤ)
        = truncShare n (rs.foldl (· + ·) 0) rl
          + (n - (rs.map (truncShare n (rs.foldl (· + ·) 0))).sum) := by
      rw [hsum]
      ring
    rw [hval]
  · intro rs2 hperm
    have hne2 : rs2 ≠ [] := by
      intro hnil
      rw [hnil] at hperm
      exact hne (hperm.symm.eq_nil ▸ rfl)
    have htot2 : rs2.foldl (· + ·) 0 ≠ 0 := by
      rw [foldl_add_eq_sum, hperm.sum_eq]
      rw [foldl_add_eq_sum] at htot
      exact htot
    exact allocate_sum_exact m n rs2 hm hne2 htot2

/-- Witness for C1 at `100` minor USD with ratios `[1, 2, 3]`. -/
theorem allocate_exact_truncated_shares_witness :
    ((MajikMoney.fromMinor (.fin 100) "USD").allocate [1, 2, 3]).length = 3 ∧
    (((MajikMoney.fromMinor (.fin 100) "USD").allocate [1, 2, 3]).map
      MajikMoney.amount).foldl DecVal.add (.fin 0) = .fin ((100 : ℤ) : ℚ) := by
  have h := allocate_exact_truncated_shares (MajikMoney.fromMinor (.fin 100) "USD")
    100 [1, 2, 3] ?hm (by decide) ?hnn ?hpos
  case hm =>
    simp [MajikMoney.fromMinor, MajikMoney.make, DecVal.toDP, roundQ, halfRound,
      ratFloor_eq] <;> norm_num [Int.fract]
  case hnn =>
    intro r hr
    simp only [List.mem_cons, List.not_mem_nil, or_false] at hr
    rcases hr with rfl | rfl | rfl <;> norm_num
  case hpos => norm_num
  exact ⟨by simpa using h.1, h.2.1⟩


/-! ## Claim C2: allocate validation -/

theorem allocate_length_of_ne_total (m : MajikMoney) (n : ℤ) (rs : List ℚ)
    (hm : m.amount = .fin ((n : ℤ) : ℚ)) (hne : rs ≠ [])
    (htot : rs.foldl (· + ·) 0 ≠ 0) :
    (m.allocate rs).length = rs.length := by
  have hall : m.allocate rs
      = (rs.dropLast.map fun r =>
          (⟨.fin ((truncShare n (rs.foldl (· + ·) 0) r : ℤ) : ℚ), m.currency⟩ : MajikMoney))
        ++ [⟨.fin (((n - (rs.dropLast.map (truncShare n (rs.foldl (· + ·) 0))).sum : ℤ) : ℚ)),
            m.currency⟩] := by
    unfold MajikMoney.allocate
    simp only [hm]
    exact allocGo_closed_form n (rs.foldl (· + ·) 0) m.currency htot rs n hne
  rw [hall]
  simp only [List.length_append, List.length_map, List.length_dropLast,
    List.length_singleton]
  have := List.length_pos.mpr hne
  omega

/-- **C2 counterexample**: `allocate` performs no validation.  On the empty
ratio list it returns an empty list (no error, and the whole amount is
dropped); on the zero-sum list `[1, -1]` it returns two parts whose amounts
are `Infinity` and `NaN`; and on the strictly negative-sum list `[-1]` it
returns the ordinary finite part `[100]` — in no case an `InvalidAllocation`
failure. -/
theorem allocate_no_validation_counterexample :
    (MajikMoney.fromMinor (.fin 100) "USD").allocate [] = [] ∧
    ((MajikMoney.fromMinor (.fin 100) "USD").allocate [1, -1]).map MajikMoney.amount
      = [.posInf, .nan] ∧
    ((MajikMoney.fromMinor (.fin 100) "USD").allocate [-1]).map MajikMoney.amount
      = [.fin 100] := by
  have husd : lookupCurrency "USD" = some ⟨"USD", "$", 2, "US Dollar"⟩ := by decide
  have hmake : MajikMoney.fromMinor (.fin 100) "USD"
      = ⟨.fin (((100 : ℤ)) : ℚ), ⟨"USD", "$", 2, "US Dollar"⟩⟩ := by
    unfold MajikMoney.fromMinor
    rw [husd, show ((100 : ℚ)) = (((100 : ℤ)) : ℚ) by norm_num, make_intCast]
    rfl
  refine ⟨rfl, ?_, ?_⟩
  · simp [MajikMoney.fromMinor, MajikMoney.make, MajikMoney.allocate, MajikMoney.allocGo,
      husd, DecVal.toDP, DecVal.mul, DecVal.div, DecVal.add, DecVal.sub, DecVal.neg,
      roundQ, halfRound, ratFloor_eq] <;>
    norm_num [Int.fract]
  · rw [hmake]
    have halloc : (⟨.fin (((100 : ℤ)) : ℚ), ⟨"USD", "$", 2, "US Dollar"⟩⟩ :
        MajikMoney).allocate [-1]
        = MajikMoney.allocGo (.fin (((100 : ℤ)) : ℚ)) (-1)
            ⟨"USD", "$", 2, "US Dollar"⟩ [-1] (.fin (((100 : ℤ)) : ℚ)) := by
      unfold MajikMoney.allocate
      norm_num
    rw [halloc,
      allocGo_closed_form 100 (-1) ⟨"USD", "$", 2, "US Dollar"⟩ (by norm_num) [-1]
        100 (by simp)]
    simp

/-- **C2 (amended)**: `allocate` itself performs no validation and never
fails.  An empty ratio list returns an empty list of parts (silently
dropping the amount).  A ratio list whose sum is zero flows through
`Decimal` division by zero and yields parts with non-finite
(`Infinity`/`NaN`) amounts rather than an `InvalidAllocation` error.  A
ratio list with strictly negative sum is processed like any other nonzero
total: one finite part per ratio is returned, summing exactly to the
amount, with no error.  The only part-count guard in the engine is in
`evenSplit`, which fails for `parts <= 0` and otherwise delegates to
`allocate` on a list of ones. -/
theorem allocate_unvalidated_evenSplit_guard (m : MajikMoney) (p : ℤ) :
    m.allocate [] = [] ∧
    (p ≤ 0 → m.evenSplit p = .error "Number of parts must be > 0") ∧
    (0 < p → m.evenSplit p = .ok (m.allocate (List.replicate p.toNat 1))) ∧
    (∀ (n : ℤ) (rs : List ℚ), m.amount = .fin ((n : ℤ) : ℚ) → rs ≠ [] →
      rs.foldl (· + ·) 0 < 0 →
      (m.allocate rs).length = rs.length ∧
      ((m.allocate rs).map MajikMoney.amount).foldl DecVal.add (.fin 0)
        = .fin ((n : ℤ) : ℚ)) := by
  refine ⟨rfl, ?_, ?_, ?_⟩
  · intro h
    simp [MajikMoney.evenSplit, h]
  · intro h
    simp [MajikMoney.evenSplit, not_le.mpr h]
  · intro n rs hm hne htotneg
    have htot : rs.foldl (· + ·) 0 ≠ 0 := ne_of_lt htotneg
    exact ⟨allocate_length_of_ne_total m n rs hm hne htot,
      allocate_sum_exact m n rs hm hne htot⟩

/-- Witness for C2: part count zero errors, and a strictly negative ratio
sum yields one finite part per ratio without error. -/
theorem allocate_unvalidated_evenSplit_guard_witness :
    (MajikMoney.fromMinor (.fin 9) "USD").evenSplit 0
      = .error "Number of parts must be > 0" ∧
    ((MajikMoney.fromMinor (.fin 9) "USD").allocate [-2]).length = 1 := by
  constructor
  · exact (allocate_unvalidated_evenSplit_guard
      (MajikMoney.fromMinor (.fin 9) "USD") 0).2.1 (by norm_num)
  · refine ((allocate_unvalidated_evenSplit_guard
      (MajikMoney.fromMinor (.fin 9) "USD") 0).2.2.2 9 [-2] ?_ (by simp) ?_).1
    · simp [MajikMoney.fromMinor, MajikMoney.make, DecVal.toDP, roundQ, halfRound,
        ratFloor_eq] <;> norm_num [Int.fract]
    · norm_num [List.foldl_cons, List.foldl_nil]


/-! ## Claim C7: JSON round-trip -/

theorem charDigit_digitChar (d : ℕ) (h : d < 10) : charDigit (digitChar d) = d := by
  interval_cases d <;> decide

theorem isDigitChar_digitChar (d : ℕ) (h : d < 10) : isDigitChar (digitChar d) = true := by
  interval_cases d <;> decide

theorem digitChar_ne_dot (d : ℕ) (h : d < 10) : digitChar d ≠ '.' := by
  interval_cases d <;> decide

theorem isDigitChar_ne_dash (c : Char) (h : isDigitChar c = true) : c ≠ '-' := by
  intro he
  subst he
  exact absurd h (by decide)

theorem isDigitChar_ne_dot (c : Char) (h : isDigitChar c = true) : c ≠ '.' := by
  intro he
  subst he
  exact absurd h (by decide)

theorem splitOnDot_no_dot (cs : List Char) (h : ∀ c ∈ cs, c ≠ '.') :
    splitOnDot cs = (cs, none) := by
  induction cs with
  | nil => rfl
  | cons c cs ih =>
    rw [splitOnDot, if_neg (h c (List.mem_cons_self c cs))]
    rw [ih (fun x hx => h x (List.mem_cons_of_mem c hx))]

theorem foldl_digits_value (ds : List ℕ) (hd : ∀ d ∈ ds, d < 10) (acc : ℕ) :
    ((ds.map digitChar).reverse).foldl (fun a c => 10 * a + charDigit c) acc
      = acc * 10 ^ ds.length + Nat.ofDigits 10 ds := by
  induction ds generalizing acc with
  | nil => simp
  | cons d tl ih =>
    simp only [List.map_cons, List.reverse_cons, List.foldl_append, List.foldl_cons,
      List.foldl_nil, List.length_cons]
    rw [ih (fun x hx => hd x (List.mem_cons_of_mem d hx)) acc]
    rw [charDigit_digitChar d (hd d (List.mem_cons_self d tl))]
    rw [Nat.ofDigits_cons]
    ring

theorem string_mk_data (cs : List Char) : (String.mk cs).data = cs := rfl

theorem natDigitsString_all_digits (n : ℕ) :
    ∀ c ∈ (natDigitsString n).data, isDigitChar c = true := by
  intro c hc
  by_cases h0 : n = 0
  · subst h0
    simp only [natDigitsString, if_pos rfl] at hc
    have : c = '0' := by simpa using hc
    subst this
    decide
  · rw [natDigitsString, if_neg h0, string_mk_data, List.mem_reverse, List.mem_map] at hc
    obtain ⟨d, hd, rfl⟩ := hc
    exact isDigitChar_digitChar d (Nat.digits_lt_base (by norm_num) hd)

theorem parseNatDigits_natDigitsString (n : ℕ) :
    parseNatDigits (natDigitsString n).data = some n := by
  by_cases h0 : n = 0
  · subst h0
    decide
  · have hlt : ∀ d ∈ Nat.digits 10 n, d < 10 :=
      fun d hd => Nat.digits_lt_base (by norm_num) hd
    have hne : ((natDigitsString n).data).isEmpty = false := by
      rw [natDigitsString, if_neg h0, string_mk_data]
      simp [Nat.digits_ne_nil_iff_ne_zero.mpr h0]
    have hall : ((natDigitsString n).data).all isDigitChar = true :=
      List.all_eq_true.mpr (natDigitsString_all_digits n)
    unfold parseNatDigits
    rw [hne, hall]
    simp only [Bool.false_eq_true, if_false, if_true]
    rw [natDigitsString, if_neg h0, string_mk_data, foldl_digits_value _ hlt 0]
    simp [Nat.ofDigits_digits]

theorem parseUnsignedChars_natDigitsString (n : ℕ) :
    parseUnsignedChars (natDigitsString n).data = some ((n : ℕ) : ℚ) := by
  have hnd : ∀ c ∈ (natDigitsString n).data, c ≠ '.' :=
    fun c hc => isDigitChar_ne_dot c (natDigitsString_all_digits n c hc)
  unfold parseUnsignedChars
  rw [splitOnDot_no_dot _ hnd]
  simp [parseNatDigits_natDigitsString]

theorem natDigitsString_ne_nil (n : ℕ) : (natDigitsString n).data ≠ [] := by
  by_cases h0 : n = 0
  · subst h0; decide
  · rw [natDigitsString, if_neg h0, string_mk_data]
    simp [Nat.digits_ne_nil_iff_ne_zero.mpr h0]

theorem parseDecString_cons (c : Char) (cs : List Char) (s : String)
    (h : s.data = c :: cs) :
    parseDecString s
      = if c = '-' then (parseUnsignedChars cs).map (fun q => DecVal.fin (-q))
        else (parseUnsignedChars (c :: cs)).map DecVal.fin := by
  unfold parseDecString
  rw [h]

theorem parseDecString_intToDecString (z : ℤ) :
    parseDecString (intToDecString z) = some (.fin ((z : ℤ) : ℚ)) := by
  rcases lt_or_ge z 0 with hz | hz
  · rw [intToDecString, if_pos hz]
    have hdata : ("-" ++ natDigitsString z.natAbs).data
        = '-' :: (natDigitsString z.natAbs).data := rfl
    rw [parseDecString_cons '-' ((natDigitsString z.natAbs).data) _ hdata,
      if_pos rfl, parseUnsignedChars_natDigitsString, Option.map_some']
    have hcast : ((z.natAbs : ℕ) : ℚ) = -((z : ℤ) : ℚ) := by
      rw [Int.cast_natAbs, abs_of_neg (by exact_mod_cast hz)]
      push_cast
      ring
    rw [hcast]
    congr 2
    ring
  · rw [intToDecString, if_neg (not_lt.mpr hz)]
    obtain ⟨c, cs, hdata⟩ : ∃ c cs, (natDigitsString z.natAbs).data = c :: cs := by
      rcases h : (natDigitsString z.natAbs).data with _ | ⟨c, cs⟩
      · exact absurd h (natDigitsString_ne_nil _)
      · exact ⟨c, cs, rfl⟩
    have hcdig : isDigitChar c = true := by
      apply natDigitsString_all_digits
      rw [hdata]
      exact List.mem_cons_self c cs
    rw [parseDecString_cons c cs _ hdata, if_neg (isDigitChar_ne_dash c hcdig),
      ← hdata, parseUnsignedChars_natDigitsString, Option.map_some']
    congr 2
    rw [Int.cast_natAbs, abs_of_nonneg (by exact_mod_cast hz)]

/-- **C7 (confirmed)**: for a valid Money — integer amount, currency present
in the table — `parseFromJSON(toJSON(m))` returns `m` itself (same amount,
same currency), and `toJSON` produces exactly the wire shape
`(amount: decimal string of the minor-unit integer, currency: ISO code,
__type: MajikMoney)`.  The size bound keeps the amount inside the configured
`toExpPos` window, where `Decimal.toString` uses plain decimal notation (the
fragment the string model covers). -/
theorem toJSON_parseFromJSON_roundtrip (m : MajikMoney) (z : ℤ)
    (hm : m.amount = .fin ((z : ℤ) : ℚ)) (hsz : z.natAbs < 10 ^ 50)
    (hcur : lookupCurrency m.currency.code = some m.currency) :
    MajikMoney.parseFromJSON m.toJSON = .ok m ∧
    m.toJSON = ⟨Sum.inl (intToDecString z), m.currency.code, some "MajikMoney"⟩ := by
  obtain ⟨a, cur⟩ := m
  dsimp only at hm hcur
  subst hm
  have hwire : MajikMoney.toJSON ⟨.fin ((z : ℤ) : ℚ), cur⟩
      = ⟨Sum.inl (intToDecString z), cur.code, some "MajikMoney"⟩ := by
    unfold MajikMoney.toJSON
    dsimp only
    rw [DecVal.decToString, Rat.num_intCast]
  refine ⟨?_, hwire⟩
  rw [hwire]
  have hstep : MajikMoney.parseFromJSON
      ⟨Sum.inl (intToDecString z), cur.code, some "MajikMoney"⟩
      = match parseDecString (intToDecString z) with
        | some v => .ok (MajikMoney.make v (some cur))
        | none => .error ("[DecimalError] Invalid argument: " ++ intToDecString z) := by
    unfold MajikMoney.parseFromJSON
    dsimp only
    rw [hcur]
  rw [hstep, parseDecString_intToDecString z]
  show Except.ok (MajikMoney.make (.fin ((z : ℤ) : ℚ)) (some cur))
      = Except.ok ⟨.fin ((z : ℤ) : ℚ), cur⟩
  rw [make_intCast]
  rfl

/-- Witness for C7 at `123` minor PHP. -/
theorem toJSON_parseFromJSON_roundtrip_witness :
    MajikMoney.parseFromJSON ((MajikMoney.fromMinor (.fin 123) "PHP").toJSON)
      = .ok (MajikMoney.fromMinor (.fin 123) "PHP") := by
  refine (toJSON_parseFromJSON_roundtrip (MajikMoney.fromMinor (.fin 123) "PHP")
    123 ?_ (by norm_num) (by decide)).1
  simp [MajikMoney.fromMinor, MajikMoney.make, DecVal.toDP, roundQ, halfRound,
    ratFloor_eq] <;> norm_num [Int.fract]

/-! ## Claim C10: median -/

theorem sortLeb_total (a b : DecVal) : a.sortLeb b = true ∨ b.sortLeb a = true := by
  cases a <;> cases b <;>
    first
      | (left; rfl)
      | (right; rfl)
      | (simp [DecVal.sortLeb]; exact le_total _ _)

theorem sortLeb_trans {a b c : DecVal} (h1 : a.sortLeb b = true)
    (h2 : b.sortLeb c = true) : a.sortLeb c = true := by
  cases a <;> cases b <;> cases c <;>
    first
      | rfl
      | (simp [DecVal.sortLeb] at h1 h2 ⊢; exact le_trans h1 h2)
      | (simp [DecVal.sortLeb] at h1 h2)
      | (simp [DecVal.sortLeb] at h1)
      | (simp [DecVal.sortLeb] at h2)

instance : IsTotal MajikMoney MajikMoney.sortRel :=
  ⟨fun a b => sortLeb_total a.amount b.amount⟩

instance : IsTrans MajikMoney MajikMoney.sortRel :=
  ⟨fun _ _ _ h1 h2 => sortLeb_trans h1 h2⟩

/-- **C10 (confirmed)**: over a non-empty uniform-currency list (with finite
amounts inside the `2^53` window where the `toMinor`-based JS comparator is
exact), `median` returns the middle element of a sorted permutation of the
input when the count is odd, and the rounded half — integer `divide` by two
with the default `ROUND_HALF_EVEN` — of the sum of the two middle elements
when the count is even.  The input list itself is untouched: the source
sorts a spread copy, and in this pure model `median` merely reads its
argument. -/
theorem median_sorted_middle (values : List MajikMoney) (hne : values ≠ [])
    (hunif : ∀ v ∈ values, ∀ w ∈ values, v.currency.code = w.currency.code)
    (hfin : ∀ v ∈ values, ∃ z : ℤ, v.amount = .fin ((z : ℤ) : ℚ) ∧ z.natAbs ≤ 2 ^ 53) :
    ∃ sorted : List MajikMoney,
      sorted.Perm values ∧ sorted.Sorted MajikMoney.sortRel ∧
      (values.length % 2 = 1 →
        MajikMoney.median values
          = .ok (sorted.getD (values.length / 2) (values.head hne))) ∧
      (values.length % 2 = 0 →
        MajikMoney.median values
          = ((sorted.getD (values.length / 2 - 1) (values.head hne)).add
              (sorted.getD (values.length / 2) (values.head hne))).map
              (fun s => s.divide (.fin 2) .halfEven)) := by
  obtain ⟨v0, rest, rfl⟩ : ∃ v0 rest, values = v0 :: rest := by
    cases values with
    | nil => exact absurd rfl hne
    | cons v0 rest => exact ⟨v0, rest, rfl⟩
  have hall : ((v0 :: rest).all fun v => v.currency.code == v0.currency.code) = true := by
    rw [List.all_eq_true]
    intro v hv
    exact beq_iff_eq.mpr (hunif v hv v0 (List.mem_cons_self v0 rest))
  have hmed : MajikMoney.median (v0 :: rest)
      = (if (v0 :: rest).length % 2 = 0 then
          (((List.insertionSort MajikMoney.sortRel (v0 :: rest)).getD
              ((v0 :: rest).length / 2 - 1) v0).add
            ((List.insertionSort MajikMoney.sortRel (v0 :: rest)).getD
              ((v0 :: rest).length / 2) v0)).map
            (fun s => s.divide (.fin 2) .halfEven)
        else .ok ((List.insertionSort MajikMoney.sortRel (v0 :: rest)).getD
            ((v0 :: rest).length / 2) v0)) := by
    simp only [MajikMoney.median, hall, if_true]
  refine ⟨List.insertionSort MajikMoney.sortRel (v0 :: rest),
    List.perm_insertionSort _ _, List.sorted_insertionSort _ _, ?_, ?_⟩
  · intro hodd
    rw [hmed, if_neg (by omega)]
    rfl
  · intro heven
    rw [hmed, if_pos heven]
    rfl

/-- Witness for C10 at three concrete USD amounts. -/
theorem median_sorted_middle_witness :
    ∃ sorted : List MajikMoney,
      sorted.Perm [MajikMoney.fromMinor (.fin 300) "USD",
        MajikMoney.fromMinor (.fin 100) "USD",
        MajikMoney.fromMinor (.fin 200) "USD"] ∧
      sorted.Sorted MajikMoney.sortRel := by
  have hunif : ∀ v ∈ [MajikMoney.fromMinor (.fin 300) "USD",
      MajikMoney.fromMinor (.fin 100) "USD", MajikMoney.fromMinor (.fin 200) "USD"],
      ∀ w ∈ [MajikMoney.fromMinor (.fin 300) "USD",
        MajikMoney.fromMinor (.fin 100) "USD", MajikMoney.fromMinor (.fin 200) "USD"],
      v.currency.code = w.currency.code := by
    intro v hv w hw
    simp only [List.mem_cons, List.not_mem_nil, or_false] at hv hw
    rcases hv with rfl | rfl | rfl <;> rcases hw with rfl | rfl | rfl <;> decide
  have hamount : ∀ k : ℤ, (MajikMoney.fromMinor (.fin (k : ℚ)) "USD").amount
      = .fin ((k : ℤ) : ℚ) := by
    intro k
    simp [MajikMoney.fromMinor, MajikMoney.make, toDP_intCast]
  have hfin : ∀ v ∈ [MajikMoney.fromMinor (.fin 300) "USD",
      MajikMoney.fromMinor (.fin 100) "USD", MajikMoney.fromMinor (.fin 200) "USD"],
      ∃ z : ℤ, v.amount = .fin ((z : ℤ) : ℚ) ∧ z.natAbs ≤ 2 ^ 53 := by
    intro v hv
    simp only [List.mem_cons, List.not_mem_nil, or_false] at hv
    rcases hv with rfl | rfl | rfl
    · exact ⟨300, by rw [show ((300 : ℚ)) = ((300 : ℤ) : ℚ) by norm_num, hamount 300],
        by norm_num⟩
    · exact ⟨100, by rw [show ((100 : ℚ)) = ((100 : ℤ) : ℚ) by norm_num, hamount 100],
        by norm_num⟩
    · exact ⟨200, by rw [show ((200 : ℚ)) = ((200 : ℤ) : ℚ) by norm_num, hamount 200],
        by norm_num⟩
  obtain ⟨s, hperm, hsort, -, -⟩ := median_sorted_middle
    [MajikMoney.fromMinor (.fin 300) "USD", MajikMoney.fromMinor (.fin 100) "USD",
      MajikMoney.fromMinor (.fin 200) "USD"] (by simp) hunif hfin
  exact ⟨s, hperm, hsort⟩
